import Mathlib

/-!
Verification of the `parse-multipart` multipart/form-data parser
(`src/multipart.js`).

The JavaScript source is shallowly embedded over byte lists:

* bytes are `Nat` (values 0..255);
* JavaScript strings that flow through the parser (header lines, the
  boundary, `lastline.toString()` results) are modelled as their UTF-8
  byte lists, so string equality is byte-list equality.  All string
  literals compared against by the source are ASCII, for which this is
  exact;
* fallible JavaScript code (thrown `TypeError` / `SyntaxError`) is
  modelled with `Except`;
* the dynamic objects built by `Object.defineProperty` are modelled as
  insertion-ordered association lists from key (byte list) to value.
-/

set_option maxRecDepth 100000
set_option maxHeartbeats 1600000

namespace Multipart

abbrev Byte := Nat

/-- UTF-8 bytes of an ASCII string literal. -/
def strBytes (s : String) : List Byte := s.data.map Char.toNat

/-- JS `'--' + boundary`, the boundary marker line contents. -/
def bLine (bd : List Byte) : List Byte := strBytes "--" ++ bd

/-- JS `String.prototype.split` with a one-character separator:
splits on every occurrence of `sep`, keeping empty fragments. -/
def splitOnByte (sep : Byte) : List Byte → List (List Byte)
  | [] => [[]]
  | b :: rest =>
    match splitOnByte sep rest with
    | [] => [[]]
    | cur :: more => if b = sep then [] :: cur :: more else (b :: cur) :: more

/-- ASCII whitespace, as removed by JS `String.prototype.trim`
(the inputs in this development are ASCII). -/
def isWs (b : Byte) : Bool := b == 32 || b == 9 || b == 10 || b == 13 || b == 11 || b == 12

/-- JS `String.prototype.trim` on byte lists. -/
def trimBytes (l : List Byte) : List Byte :=
  ((l.dropWhile isWs).reverse.dropWhile isWs).reverse

/-- `pat` is a prefix of `l` (boolean). -/
def leadsWith : List Byte → List Byte → Bool
  | [], _ => true
  | _ :: _, [] => false
  | a :: as, b :: bs => a == b && leadsWith as bs

/-- `pat` occurs as a contiguous substring of `l` (JS `indexOf(pat) >= 0`). -/
def hasSub (pat : List Byte) : List Byte → Bool
  | [] => pat.isEmpty
  | b :: rest => leadsWith pat (b :: rest) || hasSub pat rest

/-- Remove every CR (0x0d) and LF (0x0a) byte.  The scanner's line
accumulator never receives these bytes, so its contents are always
`cleanse` of a contiguous segment of the input. -/
def cleanse (l : List Byte) : List Byte := l.filter (fun b => !(b == 10) && !(b == 13))

/-- JS `Array.prototype.slice(0, e)` (negative `e` counts from the end,
clamped at 0; an `e` beyond the length is clamped to the length). -/
def jsSlice0 (l : List Byte) (e : Int) : List Byte :=
  l.take (if e < 0 then ((l.length : Int) + e).toNat else e.toNat)

/-- The typed failures that part assembly can raise: `TypeError`
(method call on `undefined`) and `SyntaxError` (`JSON.parse` failure). -/
inductive PErr where
  | typeError
  | syntaxError
deriving DecidableEq, Repr

/-- Values stored in the assembled part objects. -/
inductive JsVal where
  | str : List Byte → JsVal
  | num : List Byte → JsVal
  | bool : Bool → JsVal
  | null : JsVal
  | buf : List Byte → JsVal
deriving DecidableEq, Repr

/-- JS truthiness for the values `JsVal` can hold. -/
def jsTruthy : JsVal → Bool
  | .str s => !s.isEmpty
  | .num s => s.any (fun c => !(c == 48))
  | .bool b => b
  | .null => false
  | .buf _ => true

/-- An assembled part: an insertion-ordered association list, exactly the
object the source builds with `Object.defineProperty`. -/
abbrev JsObject := List (List Byte × JsVal)

/-- `Object.defineProperty(o, key, {value := v, ...})`: overwrite an
existing key in place, otherwise append. -/
def setProp (o : JsObject) (key : List Byte) (v : JsVal) : JsObject :=
  if o.any (fun kv => kv.1 == key) then
    o.map (fun kv => if kv.1 == key then (key, v) else kv)
  else o ++ [(key, v)]

/-- Property lookup. -/
def getProp (o : JsObject) (key : List Byte) : Option JsVal :=
  (o.find? (fun kv => kv.1 == key)).map (fun kv => kv.2)

def isDigit (b : Byte) : Bool := 48 ≤ b && b ≤ 57

/-- `JSON.parse`, modelled on the fragment the parser's inputs exercise:
escape-free quoted strings, integers without a leading zero, `true`,
`false`, `null`.  Header values containing backslash escapes or
non-integer numbers are outside this development's inputs. -/
def jsonParse (l : List Byte) : Except PErr JsVal :=
  if l = strBytes "true" then .ok (.bool true)
  else if l = strBytes "false" then .ok (.bool false)
  else if l = strBytes "null" then .ok .null
  else
    match l with
    | 34 :: rest =>
      if rest.getLast? = some 34 ∧
          rest.dropLast.all (fun c => !(c == 34) && !(c == 92)) = true then
        .ok (.str rest.dropLast)
      else .error .syntaxError
    | _ =>
      if l ≠ [] ∧ l.all isDigit = true ∧ (l.head? ≠ some 48 ∨ l = [48]) then .ok (.num l)
      else .error .syntaxError

/-- `obj` from the source (lines 43-57): split `str` on `'='`, trim the
key, `JSON.parse` the trimmed value.  `obj(undefined)` (the argument is a
missing array element) throws a `TypeError`, as does `k[1].trim()` when
the split produced no second fragment. -/
def obj (s : Option (List Byte)) : Except PErr (List Byte × JsVal) :=
  match s with
  | none => .error .typeError
  | some str =>
    let k := splitOnByte 61 str
    match k.get? 1 with
    | none => .error .typeError
    | some v =>
      match jsonParse (trimBytes v) with
      | .error e => .error e
      | .ok b => .ok (trimBytes (k.headD []), b)

/-- The raw segment descriptor handed to `process`: the captured header
line, info line, body bytes, and field-info line. -/
structure RawPart where
  header : List Byte
  info : List Byte
  part : List Byte
  fieldInfo : List Byte
deriving DecidableEq, Repr

/-- `process` from the source (lines 36-103).  A part with non-empty
`fieldInfo` is a simple form field (`{[name]: value, data: fieldInfo}`);
otherwise it is a file part assembled from header segments 2 and 1, the
info line's content type, and the raw body bytes. -/
def process (p : RawPart) : Except PErr JsObject :=
  let header := splitOnByte 59 p.header
  if p.fieldInfo ≠ [] then
    match obj (header.get? 1) with
    | .error e => .error e
    | .ok (a, b) => .ok (setProp [(a, b)] (strBytes "data") (.str p.fieldInfo))
  else
    match obj (header.get? 2) with
    | .error e => .error e
    | .ok (a2, b2) =>
      match obj (header.get? 1) with
      | .error e => .error e
      | .ok (a1, b1) =>
        let file0 : JsObject := [(a2, b2)]
        let file1 :=
          match getProp [(a1, b1)] (strBytes "name") with
          | some v => if jsTruthy v then setProp file0 (strBytes "name") v else file0
          | none => file0
        match (splitOnByte 58 p.info).get? 1 with
        | none => .error .typeError
        | some ct =>
          .ok (setProp (setProp file1 (strBytes "type") (.str (trimBytes ct)))
                (strBytes "data") (.buf p.part))

/-- The scanner's mutable variables (source lines 105-111). -/
structure ScanSt where
  lastline : List Byte
  header : List Byte
  info : List Byte
  fieldInfo : List Byte
  state : Nat
  buffer : List Byte
  allParts : List JsObject
deriving DecidableEq, Repr

/-- The line accumulator after the unconditional update at the top of the
loop (source lines 119-121): CR and LF bytes are never appended. -/
def nextLL (st : ScanSt) (b : Byte) : List Byte :=
  if b = 10 ∨ b = 13 then st.lastline else st.lastline ++ [b]

/-- The "mem save" clearing (source lines 142-145): the candidate line is
emptied when it exceeds `boundary.length + 4`. -/
def clearLL (bd : List Byte) (l : List Byte) : List Byte :=
  if bd.length + 4 < l.length then [] else l

/-- One iteration of the scanner loop (source lines 113-175), for current
byte `b` with raw previous byte `prev`. -/
def step (bd : List Byte) (prev : Option Byte) (b : Byte) (st : ScanSt) :
    Except PErr ScanSt :=
  if st.state = 0 ∧ b = 10 ∧ prev = some 13 then
    .ok { st with state := if bLine bd = nextLL st b then 1 else 0, lastline := [] }
  else if st.state = 1 ∧ b = 10 ∧ prev = some 13 then
    .ok { st with header := nextLL st b, state := 2, lastline := [] }
  else if st.state = 2 ∧ b = 10 ∧ prev = some 13 then
    .ok { st with info := nextLL st b, state := 3, lastline := [] }
  else if st.state = 3 ∧ b = 10 ∧ prev = some 13 then
    .ok { st with fieldInfo := nextLL st b, state := 4, buffer := [], lastline := [] }
  else if st.state = 4 then
    if bLine bd = clearLL bd (nextLL st b) then
      match process { header := st.header, info := st.info,
                      part := jsSlice0 st.buffer
                        ((st.buffer.length : Int) - ((clearLL bd (nextLL st b)).length : Int) - 1),
                      fieldInfo := st.fieldInfo } with
      | .error e => .error e
      | .ok prt =>
        .ok { st with buffer := [], lastline := [], state := 5,
                      header := [], info := [], allParts := st.allParts ++ [prt] }
    else
      .ok { st with buffer := st.buffer ++ [b],
                    lastline := if b = 10 ∧ prev = some 13 then [] else clearLL bd (nextLL st b) }
  else if st.state = 5 then
    .ok { st with state := if b = 10 ∧ prev = some 13 then 1 else 5, lastline := nextLL st b }
  else
    .ok { st with lastline := nextLL st b }

/-- Run the scanner over a byte list, threading the raw previous byte. -/
def scanBytes (bd : List Byte) : ScanSt → Option Byte → List Byte → Except PErr ScanSt
  | st, _, [] => .ok st
  | st, prev, b :: rest =>
    match step bd prev b st with
    | .error e => .error e
    | .ok st2 => scanBytes bd st2 (some b) rest

def initSt : ScanSt := ⟨[], [], [], [], 0, [], []⟩

/-- `multipart.parse(multipartBodyBuffer, boundary)` (source lines
35-178).  A thrown assembly error aborts the whole call. -/
def parse (body bd : List Byte) : Except PErr (List JsObject) :=
  match scanBytes bd initSt none body with
  | .error e => .error e
  | .ok st => .ok st.allParts

/-- `step` with the "mem save" clearing of the candidate line removed
(source lines 142-145 deleted, everything else identical).  This is the
comparison point for the claim that the clearing never changes the
emitted parts. -/
def stepNoClear (bd : List Byte) (prev : Option Byte) (b : Byte) (st : ScanSt) :
    Except PErr ScanSt :=
  if st.state = 0 ∧ b = 10 ∧ prev = some 13 then
    .ok { st with state := if bLine bd = nextLL st b then 1 else 0, lastline := [] }
  else if st.state = 1 ∧ b = 10 ∧ prev = some 13 then
    .ok { st with header := nextLL st b, state := 2, lastline := [] }
  else if st.state = 2 ∧ b = 10 ∧ prev = some 13 then
    .ok { st with info := nextLL st b, state := 3, lastline := [] }
  else if st.state = 3 ∧ b = 10 ∧ prev = some 13 then
    .ok { st with fieldInfo := nextLL st b, state := 4, buffer := [], lastline := [] }
  else if st.state = 4 then
    if bLine bd = nextLL st b then
      match process { header := st.header, info := st.info,
                      part := jsSlice0 st.buffer
                        ((st.buffer.length : Int) - ((nextLL st b).length : Int) - 1),
                      fieldInfo := st.fieldInfo } with
      | .error e => .error e
      | .ok prt =>
        .ok { st with buffer := [], lastline := [], state := 5,
                      header := [], info := [], allParts := st.allParts ++ [prt] }
    else
      .ok { st with buffer := st.buffer ++ [b],
                    lastline := if b = 10 ∧ prev = some 13 then [] else nextLL st b }
  else if st.state = 5 then
    .ok { st with state := if b = 10 ∧ prev = some 13 then 1 else 5, lastline := nextLL st b }
  else
    .ok { st with lastline := nextLL st b }

def scanBytesNoClear (bd : List Byte) : ScanSt → Option Byte → List Byte → Except PErr ScanSt
  | st, _, [] => .ok st
  | st, prev, b :: rest =>
    match stepNoClear bd prev b st with
    | .error e => .error e
    | .ok st2 => scanBytesNoClear bd st2 (some b) rest

/-- `parse` built on `stepNoClear`. -/
def parseNoClear (body bd : List Byte) : Except PErr (List JsObject) :=
  match scanBytesNoClear bd initSt none body with
  | .error e => .error e
  | .ok st => .ok st.allParts

/-- The loop body of `getBoundary` (source lines 186-195). -/
def gbLoop : List (List Byte) → List Byte
  | [] => []
  | it :: rest =>
    let item := trimBytes it
    if hasSub (strBytes "boundary") item then
      match (splitOnByte 61 item).get? 1 with
      | some v => trimBytes v
      | none => trimBytes (strBytes "undefined")
    else gbLoop rest

/-- `multipart.getBoundary(header)` (source lines 183-198).  When the
matching segment has no `'='`, `k[1]` is `undefined` and
`(k[1] + '').trim()` evaluates to the string `"undefined"`. -/
def getBoundary (header : List Byte) : List Byte :=
  gbLoop (splitOnByte 59 header)

/-! ### A well-formed multipart encoder

Used to state the spec's round-trip / data-exactness properties: it
produces a standard `multipart/form-data` body for a list of file-part
payloads, with fixed `Content-Disposition` / `Content-Type` header lines
and CRLF framing. -/

/-- The Content-Disposition header line used by the encoder. -/
def hdrCD : List Byte :=
  strBytes "Content-Disposition: form-data; name=\"upload\"; filename=\"a.txt\""

/-- The Content-Type header line used by the encoder. -/
def hdrCT : List Byte := strBytes "Content-Type: text/plain"

/-- One encoded part: header line, info line, blank line, payload, then
CRLF and the next boundary marker line. -/
def chunkB (bd p : List Byte) : List Byte :=
  hdrCD ++ [13, 10] ++ hdrCT ++ [13, 10, 13, 10] ++ p ++ [13, 10] ++ bLine bd

/-- Encode the parts following the opening boundary line: intermediate
boundary lines are CRLF-terminated, the final one is closed with `--`. -/
def goEnc (bd : List Byte) : List (List Byte) → List Byte
  | [] => []
  | [p] => chunkB bd p ++ [45, 45, 13, 10]
  | p :: q :: rest => chunkB bd p ++ [13, 10] ++ goEnc bd (q :: rest)

/-- A well-formed multipart body with one file part per payload. -/
def encodeMulti (bd : List Byte) (ps : List (List Byte)) : List Byte :=
  bLine bd ++ [13, 10] ++ goEnc bd ps

/-- The Part object `process` assembles for an encoded file part with
payload `p`. -/
def filePartObj (p : List Byte) : JsObject :=
  [(strBytes "filename", .str (strBytes "a.txt")),
   (strBytes "name", .str (strBytes "upload")),
   (strBytes "type", .str (strBytes "text/plain")),
   (strBytes "data", .buf p)]

/-- The last byte fed to the scanner after also consuming `bs`,
as an `Option` (`prev` when `bs` is empty). -/
def lastOpt (prev : Option Byte) (bs : List Byte) : Option Byte :=
  bs.foldl (fun _ b => some b) prev

/-- `bl` occurs in `body` as a complete CRLF-terminated line: `bl ++ CRLF`
at the start of the body or immediately after a CRLF pair. -/
def afterCRLF (bl : List Byte) : List Byte → Bool
  | [] => false
  | b :: rest => (b == 13 && leadsWith (10 :: (bl ++ [13, 10])) rest) || afterCRLF bl rest

def occursAsCRLFLine (bl body : List Byte) : Bool :=
  leadsWith (bl ++ [13, 10]) body || afterCRLF bl body

/-! ### Concrete bodies used by individual claims -/

/-- One text field (`name="foo"`, value `bar`) followed by one file field
(`name="upload"`, `filename="a.txt"`, type `text/plain`, payload
`hello`), boundary `X`. -/
def bodyTwoParts : List Byte :=
  strBytes "--X\r\nContent-Disposition: form-data; name=\"foo\"\r\n\r\nbar\r\n--X\r\nContent-Disposition: form-data; name=\"upload\"; filename=\"a.txt\"\r\nContent-Type: text/plain\r\n\r\nhello\r\n--X--\r\n"

/-- The text-field part of `bodyTwoParts` as assembled by `process`. -/
def fieldFooBar : JsObject :=
  [(strBytes "name", .str (strBytes "foo")), (strBytes "data", .str (strBytes "bar"))]

/-- `bodyTwoParts` truncated in the middle of the second part's body
(after `hel`): no terminating boundary line for the in-progress part. -/
def bodyTrunc : List Byte :=
  strBytes "--X\r\nContent-Disposition: form-data; name=\"foo\"\r\n\r\nbar\r\n--X\r\nContent-Disposition: form-data; name=\"upload\"; filename=\"a.txt\"\r\nContent-Type: text/plain\r\n\r\nhel"

/-- The scanner state at the end of `bodyTrunc`. -/
def finTrunc : ScanSt :=
  { lastline := strBytes "hel",
    header := strBytes "Content-Disposition: form-data; name=\"upload\"; filename=\"a.txt\"",
    info := strBytes "Content-Type: text/plain",
    fieldInfo := [],
    state := 4,
    buffer := strBytes "hel",
    allParts := [fieldFooBar] }

/-- A body in which `--b` never occurs as a contiguous byte run (so never
as a CRLF-terminated line), but whose lone `\n` bytes let the scanner
reassemble `--b` in its line accumulator. -/
def bodySneaky : List Byte :=
  strBytes "-\n-b\r\nh; name=\"x\"\r\ni\r\nv\r\n-\n-b"

/-- A field part whose `name="..."` header segment lacks the `'='`. -/
def bodyNoEq : List Byte :=
  strBytes "--X\r\nContent-Disposition: form-data; namefoo\r\ni\r\nv\r\n--X\r\n"

/-- A text field with an empty value: the fieldInfo line is empty, so
`process` takes the file branch and reads the missing header segment 2. -/
def bodyEmptyField : List Byte :=
  strBytes "--X\r\nContent-Disposition: form-data; name=\"foo\"\r\n\r\n\r\n--X--\r\n"

/-- A well-formed body whose payload line is long enough to trigger the
"mem save" clearing and whose tail then rebuilds the boundary marker in
the cleared candidate line. -/
def bodyClear : List Byte := encodeMulti (strBytes "b") [strBytes "AAAAAA--b"]

/-! ### Helper lemmas: strings, substrings, cleansing -/

theorem leadsWith_iff (pat : List Byte) : ∀ l, leadsWith pat l = true ↔ pat <+: l := by
  induction pat with
  | nil => intro l; simp [leadsWith]
  | cons a as ih =>
    intro l
    cases l with
    | nil => simp [leadsWith]
    | cons b bs => simp [leadsWith, ih, List.cons_prefix_cons]

theorem hasSub_iff (pat : List Byte) : ∀ l, hasSub pat l = true ↔ pat <:+: l := by
  intro l
  induction l with
  | nil => simp [hasSub, List.isEmpty_iff]
  | cons b rest ih => simp [hasSub, ih, leadsWith_iff, List.infix_cons_iff]

theorem cleanse_append (a b : List Byte) : cleanse (a ++ b) = cleanse a ++ cleanse b :=
  List.filter_append a b

theorem cleanse_snoc_nl {b : Byte} (h : b = 10 ∨ b = 13) (d : List Byte) :
    cleanse (d ++ [b]) = cleanse d := by
  rw [cleanse_append]
  rcases h with h | h <;> subst h <;> simp [cleanse]

theorem cleanse_snoc {b : Byte} (h10 : b ≠ 10) (h13 : b ≠ 13) (d : List Byte) :
    cleanse (d ++ [b]) = cleanse d ++ [b] := by
  rw [cleanse_append]
  simp [cleanse, h10, h13]

theorem cleanse_infix {l₁ l₂ : List Byte} (h : l₁ <:+: l₂) : cleanse l₁ <:+: cleanse l₂ :=
  List.IsInfix.filter _ h

theorem splitOn_no_sep {sep : Byte} : ∀ {l : List Byte}, sep ∉ l → splitOnByte sep l = [l] := by
  intro l
  induction l with
  | nil => intro _; rfl
  | cons b rest ih =>
    intro h
    have hb : ¬(b = sep) := fun hh => h (hh ▸ List.mem_cons_self b rest)
    have hr := ih (fun hm => h (List.mem_cons_of_mem _ hm))
    simp [splitOnByte, hr, hb]

theorem mem_trimBytes {b : Byte} {l : List Byte} (h : b ∈ trimBytes l) : b ∈ l := by
  unfold trimBytes at h
  have h1 := List.mem_reverse.mp h
  have h2 := (List.dropWhile_sublist isWs).subset h1
  have h3 := List.mem_reverse.mp h2
  exact (List.dropWhile_sublist isWs).subset h3

theorem bLine_cons (bd : List Byte) : bLine bd = 45 :: 45 :: bd := rfl

theorem bLine_ne_nil (bd : List Byte) : bLine bd ≠ [] := by simp [bLine_cons]

theorem bLine_length (bd : List Byte) : (bLine bd).length = bd.length + 2 := by
  simp [bLine_cons]

theorem lastOpt_nil (prev : Option Byte) : lastOpt prev [] = prev := rfl

theorem lastOpt_cons (prev : Option Byte) (b : Byte) (bs : List Byte) :
    lastOpt prev (b :: bs) = lastOpt (some b) bs := rfl

/-! ### Helper lemmas: single scanner steps -/

theorem step_plain {bd : List Byte} {prev : Option Byte} {b : Byte} {st : ScanSt}
    (h10 : b ≠ 10) (h13 : b ≠ 13) (h4 : st.state ≠ 4) (h5 : st.state ≠ 5) :
    step bd prev b st = .ok { st with lastline := st.lastline ++ [b] } := by
  simp [step, nextLL, h10, h13, h4, h5]

theorem step_cr {bd : List Byte} {prev : Option Byte} {st : ScanSt}
    (h4 : st.state ≠ 4) (h5 : st.state ≠ 5) :
    step bd prev 13 st = .ok st := by
  simp [step, nextLL, h4, h5]

theorem step_lf_nodet {bd : List Byte} {prev : Option Byte} {st : ScanSt}
    (hprev : prev ≠ some 13) (h4 : st.state ≠ 4) (h5 : st.state ≠ 5) :
    step bd prev 10 st = .ok st := by
  simp [step, nextLL, hprev, h4, h5]

theorem step_det0 {bd : List Byte} {st : ScanSt} (h : st.state = 0) :
    step bd (some 13) 10 st =
      .ok { st with state := if bLine bd = st.lastline then 1 else 0, lastline := [] } := by
  simp [step, nextLL, h]

theorem step_det1 {bd : List Byte} {st : ScanSt} (h : st.state = 1) :
    step bd (some 13) 10 st =
      .ok { st with header := st.lastline, state := 2, lastline := [] } := by
  simp [step, nextLL, h]

theorem step_det2 {bd : List Byte} {st : ScanSt} (h : st.state = 2) :
    step bd (some 13) 10 st =
      .ok { st with info := st.lastline, state := 3, lastline := [] } := by
  simp [step, nextLL, h]

theorem step_det3 {bd : List Byte} {st : ScanSt} (h : st.state = 3) :
    step bd (some 13) 10 st =
      .ok { st with fieldInfo := st.lastline, state := 4, buffer := [], lastline := [] } := by
  simp [step, nextLL, h]

theorem step_body_nomatch {bd : List Byte} {prev : Option Byte} {b : Byte} {st : ScanSt}
    (h : st.state = 4) (hne : bLine bd ≠ clearLL bd (nextLL st b)) :
    step bd prev b st =
      .ok { st with buffer := st.buffer ++ [b],
                    lastline := if b = 10 ∧ prev = some 13 then []
                                else clearLL bd (nextLL st b) } := by
  simp [step, h, hne]

theorem step_body_match {bd : List Byte} {prev : Option Byte} {b : Byte} {st : ScanSt}
    {prt : JsObject} (h : st.state = 4) (hm : bLine bd = clearLL bd (nextLL st b))
    (hp : process { header := st.header, info := st.info,
                    part := jsSlice0 st.buffer
                      ((st.buffer.length : Int) - ((clearLL bd (nextLL st b)).length : Int) - 1),
                    fieldInfo := st.fieldInfo } = .ok prt) :
    step bd prev b st =
      .ok { st with buffer := [], lastline := [], state := 5,
                    header := [], info := [], allParts := st.allParts ++ [prt] } := by
  simp [step, h, hm, hp]

theorem step_state5 {bd : List Byte} {prev : Option Byte} {b : Byte} {st : ScanSt}
    (h : st.state = 5) :
    step bd prev b st =
      .ok { st with state := if b = 10 ∧ prev = some 13 then 1 else 5,
                    lastline := nextLL st b } := by
  simp [step, h]

/-! ### Helper lemmas: composing scans -/

theorem scan_nil (bd : List Byte) (st : ScanSt) (prev : Option Byte) :
    scanBytes bd st prev [] = .ok st := rfl

theorem scan_cons_ok {bd : List Byte} {prev : Option Byte} {b : Byte} {st st2 : ScanSt}
    (h : step bd prev b st = .ok st2) (rest : List Byte) :
    scanBytes bd st prev (b :: rest) = scanBytes bd st2 (some b) rest := by
  simp [scanBytes, h]

theorem scan_cons_err {bd : List Byte} {prev : Option Byte} {b : Byte} {st : ScanSt}
    {e : PErr} (h : step bd prev b st = .error e) (rest : List Byte) :
    scanBytes bd st prev (b :: rest) = .error e := by
  simp [scanBytes, h]

theorem scan_plain (bd : List Byte) :
    ∀ (bs : List Byte) (st : ScanSt) (prev : Option Byte) (rest : List Byte),
    (∀ x ∈ bs, x ≠ 10 ∧ x ≠ 13) → st.state ≠ 4 → st.state ≠ 5 →
    scanBytes bd st prev (bs ++ rest) =
      scanBytes bd { st with lastline := st.lastline ++ bs } (lastOpt prev bs) rest := by
  intro bs
  induction bs with
  | nil => intro st prev rest _ _ _; simp [lastOpt_nil]
  | cons b bs ih =>
    intro st prev rest hbs h4 h5
    have hb := hbs b (List.mem_cons_self _ _)
    rw [List.cons_append, scan_cons_ok (step_plain hb.1 hb.2 h4 h5),
        ih { st with lastline := st.lastline ++ [b] } (some b) rest
          (fun x hx => hbs x (List.mem_cons_of_mem _ hx)) h4 h5]
    simp [lastOpt_cons]

/-! ### Helper lemmas: scanning a part body -/

/-- `process` on an encoder-shaped file part always succeeds with
`filePartObj`. -/
theorem processFile (p : List Byte) : process ⟨hdrCD, hdrCT, p, []⟩ = .ok (filePartObj p) := rfl

/-- While scanning body bytes of a payload `pay` none of whose cleansed
infixes equals the boundary line, a single step pushes the byte onto the
body accumulator and keeps the candidate line an infix of `cleanse pay`. -/
theorem scan_body_step (bd pay : List Byte)
    (hpay : hasSub (bLine bd) (cleanse pay) = false)
    {L d buf : List Byte} {prev : Option Byte} {H I F : List Byte} {A : List JsObject}
    {b : Byte} {rest : List Byte}
    (hd : L = cleanse d) (hsuf : d ++ b :: rest <:+ pay) :
    ∃ L2 d2, step bd prev b ⟨L, H, I, F, 4, buf, A⟩ = .ok ⟨L2, H, I, F, 4, buf ++ [b], A⟩ ∧
      L2 = cleanse d2 ∧ d2 ++ rest <:+ pay := by
  have hinfcl : ∀ d2 : List Byte, d2 <:+: pay → bLine bd ≠ cleanse d2 := by
    intro d2 h2 heq
    have ht := (hasSub_iff (bLine bd) (cleanse pay)).mpr (heq ▸ cleanse_infix h2)
    rw [hpay] at ht
    exact Bool.false_ne_true ht
  have hdbpre : (d ++ [b]) <+: (d ++ b :: rest) := by
    have h1 := List.prefix_append (d ++ [b]) rest
    rwa [List.append_assoc, List.singleton_append] at h1
  have hdbinf : (d ++ [b]) <:+: pay := hdbpre.isInfix.trans hsuf.isInfix
  have hrest : rest <:+ pay := by
    have h1 := List.suffix_append (d ++ [b]) rest
    rw [List.append_assoc, List.singleton_append] at h1
    exact h1.trans hsuf
  -- after the top-of-loop update the candidate line is `cleanse (d ++ [b])`
  have hllc : nextLL ⟨L, H, I, F, 4, buf, A⟩ b = cleanse (d ++ [b]) := by
    by_cases hnl : b = 10 ∨ b = 13
    · rw [nextLL, if_pos hnl, cleanse_snoc_nl hnl, ← hd]
    · push_neg at hnl
      rw [nextLL, if_neg (by tauto), cleanse_snoc hnl.1 hnl.2, ← hd]
  have hne : bLine bd ≠ clearLL bd (nextLL ⟨L, H, I, F, 4, buf, A⟩ b) := by
    unfold clearLL
    split
    · exact bLine_ne_nil bd
    · rw [hllc]; exact hinfcl (d ++ [b]) hdbinf
  have hL2 : ∃ d2, (if b = 10 ∧ prev = some 13 then ([] : List Byte)
      else clearLL bd (nextLL ⟨L, H, I, F, 4, buf, A⟩ b)) = cleanse d2 ∧
      d2 ++ rest <:+ pay := by
    split
    · exact ⟨[], rfl, by simpa using hrest⟩
    · unfold clearLL
      split
      · exact ⟨[], rfl, by simpa using hrest⟩
      · exact ⟨d ++ [b], hllc, by rwa [← List.append_cons]⟩
  obtain ⟨d2, hd2, hsufd2⟩ := hL2
  exact ⟨_, d2, step_body_nomatch rfl hne, hd2, hsufd2⟩

/-- Scanning the payload body: every byte is pushed onto the accumulator,
the scanner stays in state 4, and the candidate line stays an infix of the
cleansed payload. -/
theorem scan_body (bd pay : List Byte)
    (hpay : hasSub (bLine bd) (cleanse pay) = false) :
    ∀ (rest L buf : List Byte) (prev : Option Byte) (H I F : List Byte)
      (A : List JsObject) (tail : List Byte),
    (∃ d, L = cleanse d ∧ d ++ rest <:+ pay) →
    ∃ L2, (∃ d2, L2 = cleanse d2 ∧ d2 <:+: pay) ∧
      scanBytes bd ⟨L, H, I, F, 4, buf, A⟩ prev (rest ++ tail) =
      scanBytes bd ⟨L2, H, I, F, 4, buf ++ rest, A⟩ (lastOpt prev rest) tail := by
  intro rest
  induction rest with
  | nil =>
    intro L buf prev H I F A tail hinv
    obtain ⟨d, hd, hsuf⟩ := hinv
    exact ⟨L, ⟨d, hd, (by simpa using hsuf : d <:+ pay).isInfix⟩, by simp [lastOpt_nil]⟩
  | cons b rest ih =>
    intro L buf prev H I F A tail hinv
    obtain ⟨d, hd, hsuf⟩ := hinv
    obtain ⟨L1, d1, hstep, hd1, hsuf1⟩ :=
      @scan_body_step bd pay hpay L d buf prev H I F A b rest hd hsuf
    obtain ⟨L2, hL2inv, hL2⟩ := ih L1 (buf ++ [b]) (some b) H I F A tail ⟨d1, hd1, hsuf1⟩
    refine ⟨L2, hL2inv, ?_⟩
    rw [List.cons_append, scan_cons_ok hstep, hL2, lastOpt_cons]
    rw [List.append_assoc, List.singleton_append]

/-- Scanning the boundary marker line in state 4: with `bd = p ++ s`, the
candidate line holds `--` followed by `p`; consuming `s` completes the
match at its last byte and emits the processed part. -/
theorem scan_bd_phase (bd : List Byte) (hbd : ∀ x ∈ bd, x ≠ 10 ∧ x ≠ 13)
    {H I F buf : List Byte} {A : List JsObject} {prt : JsObject}
    (hproc : process ⟨H, I, buf, F⟩ = .ok prt) :
    ∀ (s p : List Byte), bd = p ++ s → s ≠ [] →
    ∀ (prev : Option Byte) (tail : List Byte),
    scanBytes bd ⟨45 :: 45 :: p, H, I, F, 4, buf ++ 13 :: 10 :: 45 :: 45 :: p, A⟩ prev
      (s ++ tail) =
    scanBytes bd ⟨[], [], [], F, 5, [], A ++ [prt]⟩ (lastOpt prev s) tail := by
  intro s
  induction s with
  | nil => intro p _ hne; exact absurd rfl hne
  | cons c s ih =>
    intro p hps _ prev tail
    have hc : c ≠ 10 ∧ c ≠ 13 := hbd c (by rw [hps]; simp)
    have hll : nextLL ⟨45 :: 45 :: p, H, I, F, 4, buf ++ 13 :: 10 :: 45 :: 45 :: p, A⟩ c =
        45 :: 45 :: (p ++ [c]) := by
      rw [nextLL, if_neg (by tauto)]; simp
    have hnoclear : ¬(bd.length + 4 < (45 :: 45 :: (p ++ [c])).length) := by
      rw [hps]; simp; omega
    cases s with
    | nil =>
      -- last byte of the boundary: the candidate line equals `--` ++ bd
      have hm : bLine bd = clearLL bd
          (nextLL ⟨45 :: 45 :: p, H, I, F, 4, buf ++ 13 :: 10 :: 45 :: 45 :: p, A⟩ c) := by
        rw [hll, clearLL, if_neg hnoclear, bLine_cons, hps]
      have hpart : jsSlice0 (buf ++ 13 :: 10 :: 45 :: 45 :: p)
          (((buf ++ 13 :: 10 :: 45 :: 45 :: p).length : Int) -
            ((clearLL bd (nextLL ⟨45 :: 45 :: p, H, I, F, 4,
              buf ++ 13 :: 10 :: 45 :: 45 :: p, A⟩ c)).length : Int) - 1) = buf := by
        rw [← hm, bLine_length, hps]
        have he : ((buf ++ 13 :: 10 :: 45 :: 45 :: p).length : Int) -
            (((p ++ [c]).length + 2 : Nat) : Int) - 1 = (buf.length : Int) := by
          simp; omega
        rw [he, jsSlice0, if_neg (by omega)]
        rw [Int.toNat_natCast]
        exact List.take_left buf _
      have hp2 : process ⟨H, I,
          jsSlice0 (buf ++ 13 :: 10 :: 45 :: 45 :: p)
            (((buf ++ 13 :: 10 :: 45 :: 45 :: p).length : Int) -
              ((clearLL bd (nextLL ⟨45 :: 45 :: p, H, I, F, 4,
                buf ++ 13 :: 10 :: 45 :: 45 :: p, A⟩ c)).length : Int) - 1),
          F⟩ = .ok prt := by
        rw [hpart]; exact hproc
      rw [List.singleton_append, scan_cons_ok (step_body_match rfl hm hp2)]
      rfl
    | cons c2 s2 =>
      -- middle byte of the boundary: strictly shorter than `--` ++ bd
      have hlen : (45 :: 45 :: (p ++ [c])).length < (bLine bd).length := by
        rw [bLine_length, hps]; simp
      have hne : bLine bd ≠ clearLL bd
          (nextLL ⟨45 :: 45 :: p, H, I, F, 4, buf ++ 13 :: 10 :: 45 :: 45 :: p, A⟩ c) := by
        rw [hll, clearLL, if_neg hnoclear]
        intro heq
        rw [heq] at hlen
        omega
      rw [List.cons_append, scan_cons_ok (step_body_nomatch rfl hne), lastOpt_cons]
      rw [if_neg (show ¬(c = 10 ∧ prev = some 13) by tauto), hll]
      simp only [clearLL]
      rw [if_neg hnoclear]
      simp only [List.append_assoc, List.cons_append, List.nil_append]
      exact ih (p ++ [c]) (by rw [hps]; simp) (by simp) (some c) tail

/-- Finishing a part: from state 4 with body accumulator `buf` and a
non-matching candidate line, the trailing CRLF and boundary marker line
emit `process ⟨H, I, buf, F⟩` and leave the scanner in state 5. -/
theorem scan_finish (bd : List Byte) (hbd1 : bd ≠ [])
    (hbd2 : ∀ x ∈ bd, x ≠ 10 ∧ x ≠ 13)
    {H I F buf L : List Byte} {A : List JsObject} {prt : JsObject}
    (hproc : process ⟨H, I, buf, F⟩ = .ok prt) (hL : bLine bd ≠ L) :
    ∀ (prev : Option Byte) (tail : List Byte),
    scanBytes bd ⟨L, H, I, F, 4, buf, A⟩ prev (13 :: 10 :: (bLine bd ++ tail)) =
    scanBytes bd ⟨[], [], [], F, 5, [], A ++ [prt]⟩ (lastOpt (some 10) (bLine bd)) tail := by
  intro prev tail
  have hclL : ∀ X : List Byte, bLine bd ≠ X → bLine bd ≠ clearLL bd X := by
    intro X hX
    unfold clearLL
    split
    · exact bLine_ne_nil bd
    · exact hX
  -- the CR byte
  have hll13 : nextLL ⟨L, H, I, F, 4, buf, A⟩ 13 = L := by simp [nextLL]
  have hne13 : bLine bd ≠ clearLL bd (nextLL ⟨L, H, I, F, 4, buf, A⟩ 13) := by
    rw [hll13]; exact hclL L hL
  rw [scan_cons_ok (step_body_nomatch rfl hne13)]
  rw [if_neg (show ¬((13 : Byte) = 10 ∧ prev = some 13) by simp), hll13]
  -- the LF byte: newline detected, candidate line reset
  have hll10 : nextLL ⟨clearLL bd L, H, I, F, 4, buf ++ [13], A⟩ 10 = clearLL bd L := by
    simp [nextLL]
  have hne10 : bLine bd ≠
      clearLL bd (nextLL ⟨clearLL bd L, H, I, F, 4, buf ++ [13], A⟩ 10) := by
    rw [hll10]; exact hclL _ (hclL L hL)
  rw [scan_cons_ok (step_body_nomatch rfl hne10)]
  rw [if_pos (show (10 : Byte) = 10 ∧ some 13 = some 13 from ⟨rfl, rfl⟩)]
  -- the two hyphens of the boundary marker line
  rw [bLine_cons, List.cons_append, List.cons_append]
  have hll45a : nextLL ⟨[], H, I, F, 4, (buf ++ [13]) ++ [10], A⟩ 45 = [45] := by
    simp [nextLL]
  have hne45a : bLine bd ≠
      clearLL bd (nextLL ⟨[], H, I, F, 4, (buf ++ [13]) ++ [10], A⟩ 45) := by
    rw [hll45a]
    refine hclL [45] ?_
    rw [bLine_cons]
    simp
  rw [scan_cons_ok (step_body_nomatch rfl hne45a)]
  rw [if_neg (show ¬((45 : Byte) = 10 ∧ some 10 = some 13) by simp), hll45a]
  have hcl45a : clearLL bd [45] = [45] := by
    unfold clearLL
    rw [if_neg (by simp)]
  rw [hcl45a]
  have hll45b : nextLL ⟨[45], H, I, F, 4, ((buf ++ [13]) ++ [10]) ++ [45], A⟩ 45 =
      [45, 45] := by simp [nextLL]
  have hne45b : bLine bd ≠
      clearLL bd (nextLL ⟨[45], H, I, F, 4, ((buf ++ [13]) ++ [10]) ++ [45], A⟩ 45) := by
    rw [hll45b]
    refine hclL [45, 45] ?_
    rw [bLine_cons]
    simp [hbd1]
  rw [scan_cons_ok (step_body_nomatch rfl hne45b)]
  rw [if_neg (show ¬((45 : Byte) = 10 ∧ some 45 = some 13) by simp), hll45b]
  have hcl45b : clearLL bd [45, 45] = [45, 45] := by
    unfold clearLL
    rw [if_neg (by simp)]
  rw [hcl45b]
  -- the boundary string itself, via the boundary-line phase
  dsimp only
  simp only [List.append_assoc, List.cons_append, List.singleton_append, List.nil_append]
  have hbase := @scan_bd_phase bd hbd2 H I F buf A prt hproc bd [] (by simp) hbd1
    (some 45) tail
  simp only [List.append_assoc, List.cons_append, List.singleton_append,
    List.nil_append] at hbase
  rw [hbase, lastOpt_cons, lastOpt_cons]

/-! ### Helper lemmas: CRLF transitions and whole encoded parts -/

theorem scan_crlf0 (bd : List Byte) (st : ScanSt) (h : st.state = 0)
    (prev : Option Byte) (rest : List Byte) :
    scanBytes bd st prev (13 :: 10 :: rest) =
    scanBytes bd { st with state := if bLine bd = st.lastline then 1 else 0,
                           lastline := [] } (some 10) rest := by
  rw [scan_cons_ok (step_cr (by simp [h]) (by simp [h])), scan_cons_ok (step_det0 h)]

theorem scan_crlf1 (bd : List Byte) (st : ScanSt) (h : st.state = 1)
    (prev : Option Byte) (rest : List Byte) :
    scanBytes bd st prev (13 :: 10 :: rest) =
    scanBytes bd { st with header := st.lastline, state := 2, lastline := [] }
      (some 10) rest := by
  rw [scan_cons_ok (step_cr (by simp [h]) (by simp [h])), scan_cons_ok (step_det1 h)]

theorem scan_crlf2 (bd : List Byte) (st : ScanSt) (h : st.state = 2)
    (prev : Option Byte) (rest : List Byte) :
    scanBytes bd st prev (13 :: 10 :: rest) =
    scanBytes bd { st with info := st.lastline, state := 3, lastline := [] }
      (some 10) rest := by
  rw [scan_cons_ok (step_cr (by simp [h]) (by simp [h])), scan_cons_ok (step_det2 h)]

theorem scan_crlf3 (bd : List Byte) (st : ScanSt) (h : st.state = 3)
    (prev : Option Byte) (rest : List Byte) :
    scanBytes bd st prev (13 :: 10 :: rest) =
    scanBytes bd { st with fieldInfo := st.lastline, state := 4, buffer := [],
                           lastline := [] } (some 10) rest := by
  rw [scan_cons_ok (step_cr (by simp [h]) (by simp [h])), scan_cons_ok (step_det3 h)]

theorem scan_crlf5 (bd : List Byte) (st : ScanSt) (h : st.state = 5)
    (prev : Option Byte) (rest : List Byte) :
    scanBytes bd st prev (13 :: 10 :: rest) =
    scanBytes bd { st with state := 1 } (some 10) rest := by
  have e1 : step bd prev 13 st = .ok { st with state := 5, lastline := st.lastline } := by
    have e := @step_state5 bd prev 13 st h
    simpa [nextLL] using e
  rw [scan_cons_ok e1]
  have e2 : step bd (some 13) 10 { st with state := 5, lastline := st.lastline } =
      .ok { st with state := 1, lastline := st.lastline } := by
    have e := @step_state5 bd (some 13) 10 { st with state := 5, lastline := st.lastline } rfl
    simpa [nextLL] using e
  rw [scan_cons_ok e2]

/-- From state 1, the three CRLF-terminated lines of an encoded file part
(Content-Disposition, Content-Type, blank) bring the scanner to state 4
with fresh accumulators. -/
theorem scan_hdrs (bd : List Byte) (h0 i0 f0 b0 : List Byte) (A : List JsObject)
    (prev : Option Byte) (R : List Byte) :
    scanBytes bd ⟨[], h0, i0, f0, 1, b0, A⟩ prev
      (hdrCD ++ (13 :: 10 :: (hdrCT ++ (13 :: 10 :: 13 :: 10 :: R)))) =
    scanBytes bd ⟨[], hdrCD, hdrCT, [], 4, [], A⟩ (some 10) R := by
  rw [scan_plain bd hdrCD ⟨[], h0, i0, f0, 1, b0, A⟩ prev
      (13 :: 10 :: (hdrCT ++ (13 :: 10 :: 13 :: 10 :: R)))
      (by decide) (by simp) (by simp)]
  dsimp only
  simp only [List.nil_append]
  rw [scan_crlf1 bd ⟨hdrCD, h0, i0, f0, 1, b0, A⟩ rfl (lastOpt prev hdrCD)
      (hdrCT ++ (13 :: 10 :: 13 :: 10 :: R))]
  dsimp only
  rw [scan_plain bd hdrCT ⟨[], hdrCD, i0, f0, 2, b0, A⟩ (some 10)
      (13 :: 10 :: 13 :: 10 :: R) (by decide) (by simp) (by simp)]
  dsimp only
  simp only [List.nil_append]
  rw [scan_crlf2 bd ⟨hdrCT, hdrCD, i0, f0, 2, b0, A⟩ rfl (lastOpt (some 10) hdrCT)
      (13 :: 10 :: R)]
  dsimp only
  rw [scan_crlf3 bd ⟨[], hdrCD, hdrCT, f0, 3, b0, A⟩ rfl (some 10) R]

/-- A complete encoded file part, scanned from state 1: emits
`filePartObj p` and ends in state 5. -/
theorem scan_chunk (bd : List Byte) (hbd1 : bd ≠ [])
    (hbd2 : ∀ x ∈ bd, x ≠ 10 ∧ x ≠ 13)
    {p : List Byte} (hp : hasSub (bLine bd) (cleanse p) = false)
    (h0 i0 f0 b0 : List Byte) (A : List JsObject) (prev : Option Byte)
    (tail : List Byte) :
    scanBytes bd ⟨[], h0, i0, f0, 1, b0, A⟩ prev (chunkB bd p ++ tail) =
    scanBytes bd ⟨[], [], [], [], 5, [], A ++ [filePartObj p]⟩
      (lastOpt (some 10) (bLine bd)) tail := by
  have e0 : chunkB bd p ++ tail =
      hdrCD ++ (13 :: 10 :: (hdrCT ++ (13 :: 10 :: 13 :: 10 ::
        (p ++ (13 :: 10 :: (bLine bd ++ tail)))))) := by
    simp [chunkB]
  rw [e0, scan_hdrs bd h0 i0 f0 b0 A prev (p ++ (13 :: 10 :: (bLine bd ++ tail)))]
  obtain ⟨L2, ⟨d2, hd2, hd2inf⟩, hsc⟩ :=
    scan_body bd p hp p [] [] (some 10) hdrCD hdrCT [] A
      (13 :: 10 :: (bLine bd ++ tail)) ⟨[], rfl, by simp⟩
  rw [hsc]
  simp only [List.nil_append]
  have hLne : bLine bd ≠ L2 := by
    intro heq
    have ht := (hasSub_iff (bLine bd) (cleanse p)).mpr
      (by rw [heq, hd2]; exact cleanse_infix hd2inf)
    rw [hp] at ht
    exact Bool.false_ne_true ht
  rw [scan_finish bd hbd1 hbd2 (processFile p) hLne (lastOpt (some 10) p) tail]

/-- Scanning the encoded parts following the opening boundary line, from
state 1: each part is emitted in order. -/
theorem scan_go (bd : List Byte) (hbd1 : bd ≠ [])
    (hbd2 : ∀ x ∈ bd, x ≠ 10 ∧ x ≠ 13) :
    ∀ (ps : List (List Byte)),
    (∀ p ∈ ps, hasSub (bLine bd) (cleanse p) = false) → ps ≠ [] →
    ∀ (h0 i0 f0 b0 : List Byte) (A : List JsObject) (prev : Option Byte),
    ∃ fin : ScanSt,
      scanBytes bd ⟨[], h0, i0, f0, 1, b0, A⟩ prev (goEnc bd ps) = .ok fin ∧
      fin.allParts = A ++ ps.map filePartObj := by
  intro ps
  induction ps with
  | nil => intro _ hne; exact absurd rfl hne
  | cons p ps ih =>
    intro hps _ h0 i0 f0 b0 A prev
    have hp := hps p (List.mem_cons_self _ _)
    cases ps with
    | nil =>
      have e0 : goEnc bd [p] = chunkB bd p ++ [45, 45, 13, 10] := rfl
      rw [e0, scan_chunk bd hbd1 hbd2 hp h0 i0 f0 b0 A prev [45, 45, 13, 10]]
      have s1 : step bd (lastOpt (some 10) (bLine bd)) 45
          ⟨[], [], [], [], 5, [], A ++ [filePartObj p]⟩ =
          .ok ⟨[45], [], [], [], 5, [], A ++ [filePartObj p]⟩ := by
        have e := @step_state5 bd (lastOpt (some 10) (bLine bd)) 45
          ⟨[], [], [], [], 5, [], A ++ [filePartObj p]⟩ rfl
        simpa [nextLL] using e
      rw [scan_cons_ok s1]
      have s2 : step bd (some 45) 45 ⟨[45], [], [], [], 5, [], A ++ [filePartObj p]⟩ =
          .ok ⟨[45, 45], [], [], [], 5, [], A ++ [filePartObj p]⟩ := by
        have e := @step_state5 bd (some 45) 45
          ⟨[45], [], [], [], 5, [], A ++ [filePartObj p]⟩ rfl
        simpa [nextLL] using e
      rw [scan_cons_ok s2]
      rw [scan_crlf5 bd ⟨[45, 45], [], [], [], 5, [], A ++ [filePartObj p]⟩ rfl
        (some 45) []]
      exact ⟨_, rfl, by simp⟩
    | cons q ps2 =>
      have e0 : goEnc bd (p :: q :: ps2) = chunkB bd p ++ (13 :: 10 :: goEnc bd (q :: ps2)) := by
        show chunkB bd p ++ [13, 10] ++ goEnc bd (q :: ps2) = _
        simp
      rw [e0, scan_chunk bd hbd1 hbd2 hp h0 i0 f0 b0 A prev
        (13 :: 10 :: goEnc bd (q :: ps2))]
      rw [scan_crlf5 bd ⟨[], [], [], [], 5, [], A ++ [filePartObj p]⟩ rfl
        (lastOpt (some 10) (bLine bd)) (goEnc bd (q :: ps2))]
      dsimp only
      obtain ⟨fin, hfin, hparts⟩ := ih (fun r hr => hps r (List.mem_cons_of_mem _ hr))
        (by simp) [] [] [] [] (A ++ [filePartObj p]) (some 10)
      exact ⟨fin, hfin, by rw [hparts]; simp⟩

/-- `parse` on a well-formed encoded body returns exactly the encoded
parts, each with its payload bytes intact. -/
theorem parse_encodeMulti_ok (bd : List Byte) (ps : List (List Byte)) (hbd1 : bd ≠ [])
    (hbd2 : ∀ x ∈ bd, x ≠ 10 ∧ x ≠ 13)
    (hps : ∀ p ∈ ps, hasSub (bLine bd) (cleanse p) = false) :
    parse (encodeMulti bd ps) bd = .ok (ps.map filePartObj) := by
  have hbl : ∀ x ∈ bLine bd, x ≠ 10 ∧ x ≠ 13 := by
    intro x hx
    rw [bLine_cons] at hx
    rcases List.mem_cons.mp hx with h | hx2
    · subst h; exact ⟨by decide, by decide⟩
    rcases List.mem_cons.mp hx2 with h | hx3
    · subst h; exact ⟨by decide, by decide⟩
    exact hbd2 x hx3
  unfold parse encodeMulti
  have e0 : bLine bd ++ [13, 10] ++ goEnc bd ps = bLine bd ++ (13 :: 10 :: goEnc bd ps) := by
    simp
  rw [e0]
  rw [scan_plain bd (bLine bd) initSt none (13 :: 10 :: goEnc bd ps) hbl
    (by simp [initSt]) (by simp [initSt])]
  have e1 : ({ initSt with lastline := initSt.lastline ++ bLine bd } : ScanSt) =
      ⟨bLine bd, [], [], [], 0, [], []⟩ := by
    simp [initSt]
  rw [e1, scan_crlf0 bd ⟨bLine bd, [], [], [], 0, [], []⟩ rfl
    (lastOpt none (bLine bd)) (goEnc bd ps)]
  rw [if_pos rfl]
  dsimp only
  cases ps with
  | nil =>
    rw [show goEnc bd [] = [] from rfl, scan_nil]
    rfl
  | cons p ps2 =>
    obtain ⟨fin, hfin, hparts⟩ := scan_go bd hbd1 hbd2 (p :: ps2) hps (by simp)
      [] [] [] [] [] (some 10)
    rw [hfin]
    dsimp only
    rw [hparts]
    simp

/-! ### Helper lemmas: state 0 never leaves without a boundary line -/

theorem cleanse_step {L d : List Byte} (hd : L = cleanse d) (b : Byte) :
    (if b = 10 ∨ b = 13 then L else L ++ [b]) = cleanse (d ++ [b]) := by
  by_cases hnl : b = 10 ∨ b = 13
  · rw [if_pos hnl, cleanse_snoc_nl hnl, hd]
  · push_neg at hnl
    rw [if_neg (by tauto), cleanse_snoc hnl.1 hnl.2, hd]

theorem step_seek_nodet {bd : List Byte} {prev : Option Byte} {b : Byte} {st : ScanSt}
    (h : st.state = 0) (hdet : ¬(b = 10 ∧ prev = some 13)) :
    step bd prev b st = .ok { st with lastline := nextLL st b } := by
  simp [step, h, hdet]

/-- If the cleansed body never contains the boundary marker line, the
scanner stays in state 0 for the whole input. -/
theorem scan_seek (bd body : List Byte)
    (hb : hasSub (bLine bd) (cleanse body) = false) :
    ∀ (rest L : List Byte) (prev : Option Byte) (h0 i0 f0 b0 : List Byte)
      (A : List JsObject),
    (∃ d, L = cleanse d ∧ d ++ rest <:+ body) →
    ∃ L2, scanBytes bd ⟨L, h0, i0, f0, 0, b0, A⟩ prev rest =
      .ok ⟨L2, h0, i0, f0, 0, b0, A⟩ := by
  intro rest
  induction rest with
  | nil => intro L prev h0 i0 f0 b0 A _; exact ⟨L, rfl⟩
  | cons b rest ih =>
    intro L prev h0 i0 f0 b0 A hinv
    obtain ⟨d, hd, hsuf⟩ := hinv
    have hinfcl : ∀ d2 : List Byte, d2 <:+: body → bLine bd ≠ cleanse d2 := by
      intro d2 h2 heq
      have ht := (hasSub_iff (bLine bd) (cleanse body)).mpr (heq ▸ cleanse_infix h2)
      rw [hb] at ht
      exact Bool.false_ne_true ht
    have hrest : rest <:+ body := by
      have h1 := List.suffix_append (d ++ [b]) rest
      rw [List.append_assoc, List.singleton_append] at h1
      exact h1.trans hsuf
    have hdbinf : (d ++ [b]) <:+: body := by
      have h1 := List.prefix_append (d ++ [b]) rest
      rw [List.append_assoc, List.singleton_append] at h1
      exact h1.isInfix.trans hsuf.isInfix
    by_cases hdet : b = 10 ∧ prev = some 13
    · obtain ⟨hb10, hprev⟩ := hdet
      subst hb10; subst hprev
      have hdinf : d <:+: body :=
        (List.prefix_append d (10 :: rest)).isInfix.trans hsuf.isInfix
      have hnomatch : bLine bd ≠ L := by
        rw [hd]; exact hinfcl d hdinf
      rw [scan_cons_ok (step_det0 rfl)]
      dsimp only
      rw [if_neg hnomatch]
      exact ih [] (some 10) h0 i0 f0 b0 A ⟨[], rfl, hrest⟩
    · rw [scan_cons_ok (step_seek_nodet rfl hdet)]
      have hnext : nextLL ⟨L, h0, i0, f0, 0, b0, A⟩ b = cleanse (d ++ [b]) :=
        cleanse_step hd b
      refine ih (nextLL ⟨L, h0, i0, f0, 0, b0, A⟩ b) (some b) h0 i0 f0 b0 A
        ⟨d ++ [b], hnext, ?_⟩
      rwa [List.append_assoc, List.singleton_append]

/-! ### Helper lemmas: getBoundary loop -/

theorem gbLoop_no_match :
    ∀ items : List (List Byte),
    (∀ s ∈ items, hasSub (strBytes "boundary") (trimBytes s) = false) →
    gbLoop items = [] := by
  intro items
  induction items with
  | nil => intro _; rfl
  | cons it rest ih =>
    intro h
    have h1 := h it (List.mem_cons_self _ _)
    simp only [gbLoop, h1]
    exact ih (fun s hs => h s (List.mem_cons_of_mem _ hs))

theorem gbLoop_first_match :
    ∀ (pre : List (List Byte)) (it : List Byte) (post : List (List Byte)),
    (∀ s ∈ pre, hasSub (strBytes "boundary") (trimBytes s) = false) →
    hasSub (strBytes "boundary") (trimBytes it) = true →
    gbLoop (pre ++ it :: post) =
      (match (splitOnByte 61 (trimBytes it)).get? 1 with
       | some v => trimBytes v
       | none => trimBytes (strBytes "undefined")) := by
  intro pre
  induction pre with
  | nil =>
    intro it post _ hit
    simp [gbLoop, hit]
  | cons s pre ih =>
    intro it post hpre hit
    have h1 := hpre s (List.mem_cons_self _ _)
    simp only [List.cons_append, gbLoop, h1]
    simp only [Bool.false_eq_true, if_false]
    exact ih it post (fun r hr => hpre r (List.mem_cons_of_mem _ hr)) hit

/-! ### Helper lemmas: process failure modes -/

theorem process_fieldInfo_noEq (p : RawPart) (seg : List Byte)
    (hfi : p.fieldInfo ≠ [])
    (hseg : (splitOnByte 59 p.header).get? 1 = some seg)
    (hne : (61 : Byte) ∉ seg) :
    process p = .error .typeError := by
  simp only [process]
  rw [if_pos hfi, hseg]
  have hobj : obj (some seg) = .error .typeError := by
    simp only [obj]
    rw [splitOn_no_sep hne]
    rfl
  rw [hobj]

theorem process_jsonFail (p : RawPart) (seg v : List Byte)
    (hfi : p.fieldInfo ≠ [])
    (hseg : (splitOnByte 59 p.header).get? 1 = some seg)
    (hv : (splitOnByte 61 seg).get? 1 = some v)
    (hj : jsonParse (trimBytes v) = .error .syntaxError) :
    process p = .error .syntaxError := by
  simp only [process]
  rw [if_pos hfi, hseg]
  have hobj : obj (some seg) = .error .syntaxError := by
    simp only [obj]
    rw [hv]
    dsimp only
    rw [hj]
  rw [hobj]

theorem process_file_noEq (p : RawPart) (seg : List Byte)
    (hfi : p.fieldInfo = [])
    (hseg : (splitOnByte 59 p.header).get? 1 = some seg)
    (hne : (61 : Byte) ∉ seg) :
    ∃ e, process p = .error e := by
  simp only [process]
  rw [if_neg (by simp [hfi])]
  have hobj1 : obj (some seg) = .error .typeError := by
    simp only [obj]
    rw [splitOn_no_sep hne]
    rfl
  cases hobj2 : obj ((splitOnByte 59 p.header).get? 2) with
  | error e => exact ⟨e, rfl⟩
  | ok ab =>
    obtain ⟨a2, b2⟩ := ab
    refine ⟨.typeError, ?_⟩
    rw [hseg, hobj1]

theorem process_no_seg2 (p : RawPart)
    (hfi : p.fieldInfo = [])
    (hlen : (splitOnByte 59 p.header).length ≤ 2) :
    process p = .error .typeError := by
  simp only [process]
  rw [if_neg (by simp [hfi]), List.get?_eq_none.mpr hlen]
  rfl

/-! ### Claim theorems -/

/-- C1: a body with one text field `name="foo"` value `bar` followed by
one file field `name="upload"`, `filename="a.txt"`, type `text/plain`,
payload `hello` parses to exactly those two Parts, in that order. -/
theorem parse_two_parts_example :
    parse bodyTwoParts (strBytes "X") =
      .ok [fieldFooBar, filePartObj (strBytes "hello")] := by rfl

/-- C2 counterexample: a well-formed body (the CRLF + boundary-line
sequence never occurs inside the payload) whose payload `[45,13,45,98]`
contains a lone CR; the part's data is `[45,13]`, not the bytes lying
strictly between the header block and the next boundary marker line. -/
theorem parse_data_cr_payload_cex :
    encodeMulti (strBytes "b") [[45, 13, 45, 98]] =
      (strBytes "--b\r\n" ++ hdrCD ++ strBytes "\r\n" ++ hdrCT ++ strBytes "\r\n\r\n") ++
        [45, 13, 45, 98] ++ strBytes "\r\n--b--\r\n" ∧
    hasSub (13 :: 10 :: bLine (strBytes "b")) [45, 13, 45, 98] = false ∧
    parse (encodeMulti (strBytes "b") [[45, 13, 45, 98]]) (strBytes "b") =
      .ok [[(strBytes "filename", .str (strBytes "a.txt")),
            (strBytes "name", .str (strBytes "upload")),
            (strBytes "type", .str (strBytes "text/plain")),
            (strBytes "data", .buf [45, 13])]] ∧
    JsVal.buf [45, 13] ≠ JsVal.buf [45, 13, 45, 98] :=
  ⟨by decide, by decide, by rfl, by decide⟩

/-- C2 (amended): for every well-formed encoded body whose payloads,
after removing CR and LF bytes, never contain the boundary marker line
`--boundary`, every emitted Part's data equals exactly the payload bytes
lying strictly between its header block and the next boundary marker
line, with the trailing CRLF stripped. -/
theorem parse_wellformed_data_exact (bd : List Byte) (ps : List (List Byte))
    (hbd1 : bd ≠ []) (hbd2 : ∀ x ∈ bd, x ≠ 10 ∧ x ≠ 13)
    (hps : ∀ p ∈ ps, hasSub (bLine bd) (cleanse p) = false) :
    parse (encodeMulti bd ps) bd = .ok (ps.map filePartObj) ∧
    ∀ p : List Byte, getProp (filePartObj p) (strBytes "data") = some (.buf p) :=
  ⟨parse_encodeMulti_ok bd ps hbd1 hbd2 hps, fun _ => rfl⟩

theorem parse_wellformed_data_exact_witness :
    parse (encodeMulti (strBytes "X") [[0, 1, 2], strBytes "hi"]) (strBytes "X") =
      .ok [filePartObj [0, 1, 2], filePartObj (strBytes "hi")] ∧
    getProp (filePartObj [0, 1, 2]) (strBytes "data") = some (.buf [0, 1, 2]) := by
  have h := parse_wellformed_data_exact (strBytes "X") [[0, 1, 2], strBytes "hi"]
    (by decide) (by decide) (by decide)
  exact ⟨h.1, h.2 [0, 1, 2]⟩

/-- C3 counterexample: the payload `[45,10,45,98]` has no full CRLF pair
(its CR/LF bytes are all lone) and does not contain the boundary line
contiguously, yet re-parsing its encoding returns data `[45,10]`: the
round trip loses bytes because the scanner's line accumulator skips lone
LF bytes and reassembles `--b` across the gap. -/
theorem roundtrip_lf_payload_cex :
    hasSub [13, 10] [45, 10, 45, 98] = false ∧
    hasSub (bLine (strBytes "b")) [45, 10, 45, 98] = false ∧
    parse (encodeMulti (strBytes "b") [[45, 10, 45, 98]]) (strBytes "b") =
      .ok [[(strBytes "filename", .str (strBytes "a.txt")),
            (strBytes "name", .str (strBytes "upload")),
            (strBytes "type", .str (strBytes "text/plain")),
            (strBytes "data", .buf [45, 10])]] ∧
    JsVal.buf [45, 10] ≠ JsVal.buf [45, 10, 45, 98] :=
  ⟨by decide, by decide, by rfl, by decide⟩

/-- C3 (amended): encoding a file part's bytes into a well-formed
multipart body and re-parsing with the same boundary reproduces the
original bytes exactly — including lone CR or LF bytes — provided the
payload with all CR and LF bytes removed does not contain the boundary
marker line `--boundary` as a substring. -/
theorem roundtrip_file_bytes (bd payload : List Byte) (hbd1 : bd ≠ [])
    (hbd2 : ∀ x ∈ bd, x ≠ 10 ∧ x ≠ 13)
    (hpay : hasSub (bLine bd) (cleanse payload) = false) :
    parse (encodeMulti bd [payload]) bd = .ok [filePartObj payload] ∧
    getProp (filePartObj payload) (strBytes "data") = some (.buf payload) := by
  have h := parse_encodeMulti_ok bd [payload] hbd1 hbd2
    (by intro p hp; rw [List.mem_singleton.mp hp]; exact hpay)
  exact ⟨h, rfl⟩

theorem roundtrip_file_bytes_witness :
    parse (encodeMulti (strBytes "B") [[104, 13, 105]]) (strBytes "B") =
      .ok [filePartObj [104, 13, 105]] ∧
    getProp (filePartObj [104, 13, 105]) (strBytes "data") =
      some (.buf [104, 13, 105]) := by
  have h := roundtrip_file_bytes (strBytes "B") [104, 13, 105]
    (by decide) (by decide) (by decide)
  exact ⟨h.1, h.2⟩

/-- C4: `getBoundary` splits on `;`, trims each segment, and for the
first segment containing the substring `boundary` returns the portion
after splitting that segment on `=`, trimmed; with no matching segment it
returns the empty string.  The two concrete examples from the spec are
included. -/
theorem getBoundary_contract :
    getBoundary (strBytes "multipart/form-data; boundary=ABC123") = strBytes "ABC123" ∧
    getBoundary (strBytes "text/plain") = [] ∧
    (∀ h : List Byte,
      (∀ s ∈ splitOnByte 59 h, hasSub (strBytes "boundary") (trimBytes s) = false) →
      getBoundary h = []) ∧
    (∀ (h : List Byte) (pre : List (List Byte)) (it : List Byte)
      (post : List (List Byte)) (v : List Byte),
      splitOnByte 59 h = pre ++ it :: post →
      (∀ s ∈ pre, hasSub (strBytes "boundary") (trimBytes s) = false) →
      hasSub (strBytes "boundary") (trimBytes it) = true →
      (splitOnByte 61 (trimBytes it)).get? 1 = some v →
      getBoundary h = trimBytes v) := by
  refine ⟨by decide, by decide, ?_, ?_⟩
  · intro h hno
    unfold getBoundary
    exact gbLoop_no_match _ hno
  · intro h pre it post v hsplit hpre hit hv
    unfold getBoundary
    rw [hsplit, gbLoop_first_match pre it post hpre hit, hv]

theorem getBoundary_contract_witness :
    getBoundary (strBytes "a; x-boundary-param=zz; rest") = trimBytes (strBytes "zz") :=
  getBoundary_contract.2.2.2 (strBytes "a; x-boundary-param=zz; rest")
    [strBytes "a"] (strBytes " x-boundary-param=zz") [strBytes " rest"] (strBytes "zz")
    (by decide) (by decide) (by decide) (by decide)

/-- C5: a `name=` header segment lacking `=` makes `obj` throw a
`TypeError` (`k[1]` is `undefined`); a value rejected by `JSON.parse`
throws a `SyntaxError`; either way `process` fails for that part and the
whole `parse` call returns the typed failure with no partial part list
(concrete body `bodyNoEq`). -/
theorem malformed_header_fails_parse :
    (∀ (p : RawPart) (seg : List Byte), p.fieldInfo ≠ [] →
      (splitOnByte 59 p.header).get? 1 = some seg → (61 : Byte) ∉ seg →
      process p = .error .typeError) ∧
    (∀ (p : RawPart) (seg : List Byte), p.fieldInfo = [] →
      (splitOnByte 59 p.header).get? 1 = some seg → (61 : Byte) ∉ seg →
      ∃ e, process p = .error e) ∧
    (∀ (p : RawPart) (seg v : List Byte), p.fieldInfo ≠ [] →
      (splitOnByte 59 p.header).get? 1 = some seg →
      (splitOnByte 61 seg).get? 1 = some v →
      jsonParse (trimBytes v) = .error .syntaxError →
      process p = .error .syntaxError) ∧
    parse bodyNoEq (strBytes "X") = .error .typeError :=
  ⟨fun p seg h1 h2 h3 => process_fieldInfo_noEq p seg h1 h2 h3,
   fun p seg h1 h2 h3 => process_file_noEq p seg h1 h2 h3,
   fun p seg v h1 h2 h3 h4 => process_jsonFail p seg v h1 h2 h3 h4,
   by rfl⟩

theorem malformed_header_fails_parse_witness :
    process ⟨strBytes "CD; namefoo", [], [], strBytes "v"⟩ = .error .typeError ∧
    process ⟨strBytes "CD; name=bar", [], [], strBytes "v"⟩ = .error .syntaxError := by
  constructor
  · exact malformed_header_fails_parse.1 ⟨strBytes "CD; namefoo", [], [], strBytes "v"⟩
      (strBytes " namefoo") (by decide) (by decide) (by decide)
  · exact malformed_header_fails_parse.2.2.1 ⟨strBytes "CD; name=bar", [], [], strBytes "v"⟩
      (strBytes " name=bar") (strBytes "bar") (by decide) (by decide) (by decide) (by rfl)

/-- C6 counterexample: in `bodySneaky` the line `--b` never occurs as a
complete CRLF-terminated line (nor even as a contiguous byte run), yet
`parse` returns one Part: the scanner's line accumulator skips the lone
`\n` bytes of `-\n-b` and reassembles `--b`. -/
theorem parse_absent_boundary_cex :
    occursAsCRLFLine (bLine (strBytes "b")) bodySneaky = false ∧
    parse bodySneaky (strBytes "b") =
      .ok [[(strBytes "name", .str (strBytes "x")),
            (strBytes "data", .str (strBytes "v"))]] ∧
    [[(strBytes "name", JsVal.str (strBytes "x")),
      (strBytes "data", JsVal.str (strBytes "v"))]] ≠ ([] : List JsObject) :=
  ⟨by decide, by rfl, by decide⟩

/-- C6 (amended): if the boundary marker line `--boundary` does not occur
in the body after removing all CR and LF bytes — in particular whenever
the boundary string is absent from the body — `parse` returns the empty
sequence. -/
theorem parse_absent_boundary_empty (body bd : List Byte)
    (h : hasSub (bLine bd) (cleanse body) = false) :
    parse body bd = .ok [] := by
  obtain ⟨L2, hsc⟩ := scan_seek bd body h body [] none [] [] [] [] []
    ⟨[], rfl, by simp⟩
  unfold parse
  rw [show (initSt : ScanSt) = ⟨[], [], [], [], 0, [], []⟩ from rfl, hsc]

theorem parse_absent_boundary_empty_witness :
    parse (strBytes "hello world") (strBytes "X") = .ok [] :=
  parse_absent_boundary_empty (strBytes "hello world") (strBytes "X") (by decide)

/-- C7: when the input ends while the scanner is still reading a part
(header states 1-3 or body state 4), `parse` raises no error and returns
exactly the parts that were fully delimited before the truncation point;
the in-progress part is silently dropped.  `bodyTrunc` truncates a second
part mid-body and only the first part is returned. -/
theorem truncated_input_drops_partial :
    (∀ (body bd : List Byte) (fin : ScanSt),
      scanBytes bd initSt none body = .ok fin →
      (fin.state = 1 ∨ fin.state = 2 ∨ fin.state = 3 ∨ fin.state = 4) →
      parse body bd = .ok fin.allParts) ∧
    parse bodyTrunc (strBytes "X") = .ok [fieldFooBar] := by
  constructor
  · intro body bd fin h _
    unfold parse
    rw [h]
  · rfl

theorem truncated_input_drops_partial_witness :
    parse bodyTrunc (strBytes "X") = .ok finTrunc.allParts :=
  truncated_input_drops_partial.1 bodyTrunc (strBytes "X") finTrunc (by rfl) (by decide)

/-- C8 counterexample: on `bodyClear` (payload `AAAAAA--b`, boundary
`b`) the "mem save" clearing changes the emitted part: with clearing the
data is `AAAA`, without it (`parseNoClear`) the data is the full
payload `AAAAAA--b` — so the emitted body is not independent of the
clearing. -/
theorem clear_independence_cex :
    parse bodyClear (strBytes "b") = .ok [filePartObj (strBytes "AAAA")] ∧
    parseNoClear bodyClear (strBytes "b") =
      .ok [filePartObj (strBytes "AAAAAA--b")] ∧
    filePartObj (strBytes "AAAA") ≠ filePartObj (strBytes "AAAAAA--b") :=
  ⟨by rfl, by rfl, by decide⟩

/-- C8 (amended): in the body state the candidate line is cleared exactly
when its length exceeds `boundary.length + 4`, and the clearing never
discards body bytes: every byte processed without a boundary match is
appended to the body accumulator regardless of whether the clearing
fired.  (The emitted body is nevertheless not independent of the
clearing, see the counterexample.) -/
theorem clear_preserves_buffer_step (bd : List Byte) (prev : Option Byte) (b : Byte)
    (st : ScanSt) (h4 : st.state = 4)
    (hne : bLine bd ≠ (if bd.length + 4 < (nextLL st b).length then [] else nextLL st b)) :
    clearLL bd (nextLL st b) =
      (if bd.length + 4 < (nextLL st b).length then [] else nextLL st b) ∧
    step bd prev b st = .ok { st with buffer := st.buffer ++ [b],
                                      lastline := if b = 10 ∧ prev = some 13 then []
                                                  else clearLL bd (nextLL st b) } :=
  ⟨rfl, step_body_nomatch h4 hne⟩

theorem clear_preserves_buffer_step_witness :
    clearLL (strBytes "b")
      (nextLL ⟨strBytes "AAAAAA", [], [], [], 4, strBytes "AAAAAA", []⟩ 65) = [] ∧
    step (strBytes "b") (some 65) 65
      ⟨strBytes "AAAAAA", [], [], [], 4, strBytes "AAAAAA", []⟩ =
      .ok ⟨[], [], [], [], 4, strBytes "AAAAAA" ++ [65], []⟩ := by
  have h := clear_preserves_buffer_step (strBytes "b") (some 65) 65
    ⟨strBytes "AAAAAA", [], [], [], 4, strBytes "AAAAAA", []⟩ rfl (by decide)
  exact ⟨h.1, h.2⟩

/-- C9 counterexample: the claim quantifies over every header containing
some `boundary` segment without `=`, but `getBoundary` only reports
`"undefined"` when the first matching segment lacks `=`: here the second
segment ` boundaryz` matches and has no `=`, yet the result is `x`. -/
theorem getBoundary_first_match_cex :
    (∃ seg ∈ splitOnByte 59 (strBytes "boundary=x; boundaryz"),
      hasSub (strBytes "boundary") (trimBytes seg) = true ∧ (61 : Byte) ∉ seg) ∧
    getBoundary (strBytes "boundary=x; boundaryz") = strBytes "x" ∧
    strBytes "x" ≠ strBytes "undefined" :=
  ⟨⟨strBytes " boundaryz", by decide, by decide, by decide⟩, by decide, by decide⟩

/-- C9 (amended): whenever the first (leftmost) semicolon-delimited
segment whose trimmed form contains `boundary` has no `=` character,
`getBoundary` returns the nine-character string `"undefined"` (the
stringification of the missing split result), not the empty string. -/
theorem getBoundary_missing_eq_undefined (h : List Byte) (pre : List (List Byte))
    (it : List Byte) (post : List (List Byte))
    (hsplit : splitOnByte 59 h = pre ++ it :: post)
    (hpre : ∀ s ∈ pre, hasSub (strBytes "boundary") (trimBytes s) = false)
    (hit : hasSub (strBytes "boundary") (trimBytes it) = true)
    (hne : (61 : Byte) ∉ it) :
    getBoundary h = strBytes "undefined" := by
  unfold getBoundary
  rw [hsplit, gbLoop_first_match pre it post hpre hit]
  have hnt : (61 : Byte) ∉ trimBytes it := fun hm => hne (mem_trimBytes hm)
  rw [splitOn_no_sep hnt]
  rfl

theorem getBoundary_missing_eq_undefined_witness :
    getBoundary (strBytes "multipart/form-data; boundaryxyz") = strBytes "undefined" :=
  getBoundary_missing_eq_undefined (strBytes "multipart/form-data; boundaryxyz")
    [strBytes "multipart/form-data"] (strBytes " boundaryxyz") []
    (by decide) (by decide) (by decide) (by decide)

/-- C10: when the fieldInfo line is empty — as for a text field with an
empty value — `process` takes the file branch and reads header segment 2;
with a 2-segment Content-Disposition header that index is missing, `obj`
receives `undefined` and the whole parse fails with a `TypeError` instead
of emitting a field Part with empty data (concrete body
`bodyEmptyField`). -/
theorem empty_fieldline_file_branch_fails :
    (∀ p : RawPart, p.fieldInfo = [] → (splitOnByte 59 p.header).length ≤ 2 →
      process p = .error .typeError) ∧
    parse bodyEmptyField (strBytes "X") = .error .typeError :=
  ⟨fun p h1 h2 => process_no_seg2 p h1 h2, by rfl⟩

theorem empty_fieldline_file_branch_fails_witness :
    process ⟨strBytes "Content-Disposition: form-data; name=\"foo\"", [], [], []⟩ =
      .error .typeError :=
  empty_fieldline_file_branch_fails.1
    ⟨strBytes "Content-Disposition: form-data; name=\"foo\"", [], [], []⟩
    rfl (by decide)

end Multipart
